import Mathlib

/-!
Shallow embedding of the Wikipedia extraction core
(`internal/extractor/extractor.go`): reference-index building,
citation resolution, row parsing and the extraction orchestrator.

A document is represented by the results of the CSS queries the Go code
performs: the text of `h1#firstHeading` and `title` (empty string when the
element is absent, as `Text()` returns), the sections matched by the
reference-section selector, the items matched by `ol.references li`, and
the regions matched by `.infobox` and `table.wikitable`.  Go maps are
embedded as functions `String → Option String`; assignment is pointwise
update, so the Go overwrite semantics is kept exactly.
-/

namespace WikiExtract

/-- `listStarts hay pat` is true when `pat` is a leading segment of `hay`
(character lists).  Models Go `strings.HasPrefix` and the CSS `[href^=..]`
attribute test. -/
def listStarts : List Char → List Char → Bool
  | _, [] => true
  | [], _ :: _ => false
  | a :: hs, b :: ps => if a = b then listStarts hs ps else false

/-- `listHasSub hay pat` is true when `pat` occurs contiguously inside
`hay`.  Models Go `strings.Contains` and the CSS `[href*=..]` test. -/
def listHasSub : List Char → List Char → Bool
  | [], pat => pat.isEmpty
  | a :: hs, pat => listStarts (a :: hs) pat || listHasSub hs pat

/-- Models `strings.Contains`. -/
def strContains (s pat : String) : Bool := listHasSub s.data pat.data

/-- Models `strings.HasPrefix` / the selector test `href^='http'`. -/
def strStarts (s pat : String) : Bool := listStarts s.data pat.data

/-- Drop the first `n` characters of a character list. -/
def dropChars : Nat → List Char → List Char
  | 0, cs => cs
  | _ + 1, [] => []
  | n + 1, _ :: cs => dropChars n cs

/-- Models `strings.TrimPrefix`: drop the leading segment when present,
otherwise return the string unchanged. -/
def goTrimPre (s pat : String) : String :=
  if strStarts s pat then String.mk (dropChars pat.data.length s.data) else s

/-- Remove leading whitespace characters. -/
def dropWS : List Char → List Char
  | [] => []
  | c :: cs => if c.isWhitespace then dropWS cs else c :: cs

/-- Models `strings.TrimSpace`: trim leading and trailing whitespace. -/
def goTrimSpace (s : String) : String :=
  String.mk ((dropWS (dropWS s.data).reverse).reverse)

/-- An anchor (`a` element) inside a value cell: its optional `href`
attribute, and whether it sits inside a `sup` element (so that the
selector `sup a` matches it). -/
structure Anchor where
  href : Option String
  inSup : Bool
deriving DecidableEq

/-- A table cell (`th` or `td`): its kind, its text content, and the
anchors it contains in document order. -/
structure Cell where
  isTh : Bool
  text : String
  anchors : List Anchor
deriving DecidableEq

/-- A table row (`tr`): its class list and its cells in document order. -/
structure Row where
  classes : List String
  cells : List Cell
deriving DecidableEq

/-- A structured region (`.infobox` or `table.wikitable`): its rows. -/
structure Region where
  rows : List Row
deriving DecidableEq

/-- A link inside a reference list item, with its optional `href`. -/
structure Link where
  href : Option String
deriving DecidableEq

/-- A reference list item (`li`): its optional `id` attribute and the
links it contains in document order. -/
structure RefItem where
  id : Option String
  links : List Link
deriving DecidableEq

/-- A node matched by the reference-section selector
`#References, #references, .reflist, .references`: its list items. -/
structure RefSection where
  items : List RefItem
deriving DecidableEq

/-- A parsed document, given by the results of the queries the extractor
performs on it. -/
structure Document where
  firstHeadingText : String
  titleText : String
  refSections : List RefSection
  olRefItems : List RefItem
  infoboxes : List Region
  wikitables : List Region
deriving DecidableEq

/-- One extracted assertion, as in `extractor.Quad`. -/
structure Quad where
  subject : String
  relationship : String
  value : String
  citation : String
deriving DecidableEq

/-- The hrefs of the links of a reference item matched by the selector
`a[href^='http']`, in document order. -/
def httpLinks (li : RefItem) : List String :=
  li.links.filterMap fun a =>
    match a.href with
    | some h => if strStarts h "http" then some h else none
    | none => none

/-- Pointwise update of an embedded Go map (`references[k] = v`). -/
def refMapUpdate (m : String → Option String) (k v : String) :
    String → Option String :=
  fun q => if q = k then some v else m q

/-- Processing of one reference list item in `extractReferences`: when the
item has an `id`, each external link's href is assigned to that id in
turn (so a later link overwrites an earlier one). -/
def processRefItem (refs : String → Option String) (li : RefItem) :
    String → Option String :=
  match li.id with
  | some i => (httpLinks li).foldl (fun m h => refMapUpdate m i h) refs
  | none => refs

/-- `extractReferences` from the source: scan the reference sections'
list items, then the `ol.references li` items, merging into one map. -/
def extractReferences (d : Document) : String → Option String :=
  let refs0 : String → Option String := fun _ => none
  let refs1 := d.refSections.foldl (fun m s => s.items.foldl processRefItem m) refs0
  d.olRefItems.foldl processRefItem refs1

/-- The per-anchor body shared by both loops of `extractCitations`: if the
href exists and contains `#cite_note-`, trim that leading segment, look up
`"cite_note-" ++ id` in the reference map, and append the resolved target
unless it was already collected.  State is the pair of the ordered
`citations` list and the `citationMap` membership function. -/
def processCiteAnchor (refs : String → Option String)
    (st : List String × (String → Bool)) (a : Anchor) :
    List String × (String → Bool) :=
  match a.href with
  | some href =>
    if strContains href "#cite_note-" then
      let citationID := goTrimPre href "#cite_note-"
      let referenceKey := "cite_note-" ++ citationID
      match refs referenceKey with
      | some actualCitation =>
        if st.2 actualCitation then st
        else (st.1 ++ [actualCitation],
              fun x => if x = actualCitation then true else st.2 x)
      | none => st
    else st
  | none => st

/-- The anchors matched by the first loop's selector
`a[href*='#cite_note']`, in document order. -/
def citePassOne (anchors : List Anchor) : List Anchor :=
  anchors.filter fun a =>
    match a.href with
    | some h => strContains h "#cite_note"
    | none => false

/-- The anchors matched by the second loop's selector `sup a`, in
document order. -/
def citePassTwo (anchors : List Anchor) : List Anchor :=
  anchors.filter fun a => a.inSup

/-- `extractCitations` from the source: run the anchor loop, then the
superscript loop on the same state, and join the collected targets with
`"; "`, or return the sentinel when none were collected. -/
def extractCitations (anchors : List Anchor) (refs : String → Option String) :
    String :=
  let st1 := (citePassOne anchors).foldl (processCiteAnchor refs)
    ([], fun _ => false)
  let st2 := (citePassTwo anchors).foldl (processCiteAnchor refs) st1
  if st2.1.isEmpty then "no citation"
  else String.intercalate "; " st2.1

/-- Concatenated text of a list of cells, as `Selection.Text()` returns
for a multi-node selection. -/
def cellsText (cs : List Cell) : String :=
  cs.foldl (fun acc c => acc ++ c.text) ""

/-- Concatenated anchors of a list of cells, in document order. -/
def cellsAnchors (cs : List Cell) : List Anchor :=
  cs.foldl (fun acc c => acc ++ c.anchors) []

/-- The row's `th` cells (the selection `s.Find("th")`). -/
def rowTh (r : Row) : List Cell := r.cells.filter fun c => c.isTh

/-- The row's `td` cells (the selection `s.Find("td")`). -/
def rowTd (r : Row) : List Cell := r.cells.filter fun c => !c.isTh

/-- Per-row body of `parseInfobox`: skip header/subheader rows, then emit
a quad exactly when both the trimmed label and the trimmed value are
non-empty. -/
def infoboxRowQuad (subject : String) (refs : String → Option String)
    (r : Row) : Option Quad :=
  if r.classes.contains "infobox-header" || r.classes.contains "infobox-subheader" then
    none
  else
    let label := goTrimSpace (cellsText (rowTh r))
    let valueCells := rowTd r
    let value := goTrimSpace (cellsText valueCells)
    if label != "" && value != "" then
      some { subject := subject, relationship := label, value := value,
             citation := extractCitations (cellsAnchors valueCells) refs }
    else none

/-- `parseInfobox` from the source: iterate the region's rows in order. -/
def parseInfobox (region : Region) (subject : String)
    (refs : String → Option String) : List Quad :=
  region.rows.filterMap (infoboxRowQuad subject refs)

/-- Per-row body of `parseTable`: the selection `s.Find("td, th")` must
have at least two cells; the first is the label, the second the value,
further cells are ignored. -/
def tableRowQuad (subject : String) (refs : String → Option String)
    (r : Row) : Option Quad :=
  match r.cells with
  | c0 :: c1 :: _ =>
    let label := goTrimSpace c0.text
    let value := goTrimSpace c1.text
    if label != "" && value != "" then
      some { subject := subject, relationship := label, value := value,
             citation := extractCitations c1.anchors refs }
    else none
  | _ => none

/-- `parseTable` from the source: iterate the table's rows in order. -/
def parseTable (region : Region) (subject : String)
    (refs : String → Option String) : List Quad :=
  region.rows.filterMap (tableRowQuad subject refs)

/-- The page subject: text of `h1#firstHeading`, falling back to the text
of `title` when empty (both empty yields the empty string). -/
def pageTitle (d : Document) : String :=
  let title := d.firstHeadingText
  if title = "" then d.titleText else title

/-- The body of the `OnHTML` handler of `ExtractFromURL`: resolve the
title, build the reference index once, then append the quads of every
infobox and every wikitable in document order. -/
def extract (d : Document) : List Quad :=
  let title := pageTitle d
  let references := extractReferences d
  let quads := d.infoboxes.foldl
    (fun acc s => acc ++ parseInfobox s title references) ([] : List Quad)
  d.wikitables.foldl (fun acc s => acc ++ parseTable s title references) quads

/-- Two successive runs of the extraction on the same document. -/
def extractTwice (d : Document) : List Quad × List Quad :=
  (extract d, extract d)

/-- `ExtractFromURL` at the core's boundary: the fetch collaborator
either fails (no document) or supplies the parsed document, which the
core processes. -/
def extractFromURL (fetched : Option Document) : Except String (List Quad) :=
  match fetched with
  | none => Except.error "failed to visit URL"
  | some d => Except.ok (extract d)

/-- The target an anchor resolves to through the reference map, when its
href carries a citation-note fragment: the lookup performed by
`processCiteAnchor`, without the dedup bookkeeping. -/
def resolveAnchor (refs : String → Option String) (a : Anchor) :
    Option String :=
  match a.href with
  | some href =>
    if strContains href "#cite_note-" then
      refs ("cite_note-" ++ goTrimPre href "#cite_note-")
    else none
  | none => none

/-- Append an optional resolved target to the collected state unless
already present. -/
def dedupStep (st : List String × (String → Bool)) :
    Option String → List String × (String → Bool)
  | some t =>
    if st.2 t then st
    else (st.1 ++ [t], fun x => if x = t then true else st.2 x)
  | none => st

/-- First-occurrence deduplication, folded from a starting accumulator. -/
def dedupFoldFrom (acc : List String) (l : List String) : List String :=
  l.foldl (fun acc x => if x ∈ acc then acc else acc ++ [x]) acc

/-- First-occurrence deduplication of a list. -/
def firstDedup (l : List String) : List String := dedupFoldFrom [] l

/-- The citation-collection state is in sync when the membership function
agrees with membership in the ordered list. -/
def Sync (st : List String × (String → Bool)) : Prop :=
  ∀ x, st.2 x = true ↔ x ∈ st.1

/-- `extractCitations` with the superscript loop removed: only the
`a[href*='#cite_note']` pass runs. -/
def extractCitationsNoSup (anchors : List Anchor)
    (refs : String → Option String) : String :=
  let st1 := (citePassOne anchors).foldl (processCiteAnchor refs)
    ([], fun _ => false)
  if st1.1.isEmpty then "no citation"
  else String.intercalate "; " st1.1

/-- The (identifier, target) assignments one reference item performs on
the index, in execution order. -/
def itemWrites (li : RefItem) : List (String × String) :=
  match li.id with
  | some i => (httpLinks li).map fun h => (i, h)
  | none => []

/-- All assignments `extractReferences` performs, in execution order:
section items first, then the `ol.references li` items. -/
def refWrites (d : Document) : List (String × String) :=
  ((d.refSections.flatMap RefSection.items) ++ d.olRefItems).flatMap itemWrites

/-- A reference item holding two external links, first `http://a`, then
`http://b`. -/
def twoLinkItem : RefItem :=
  { id := some "cite_note-1", links := [⟨some "http://a"⟩, ⟨some "http://b"⟩] }

/-- A document whose single reference section holds `twoLinkItem`. -/
def twoLinkDoc : Document :=
  { firstHeadingText := "T", titleText := "T",
    refSections := [⟨[twoLinkItem]⟩], olRefItems := [],
    infoboxes := [], wikitables := [] }

/-- A reference map with the single key `cite_note-ok`. -/
def oneKeyRefs : String → Option String :=
  fun k => if k = "cite_note-ok" then some "http://x" else none

/-- The empty citation-collection state. -/
def emptyCiteState : List String × (String → Bool) :=
  ([], fun _ => false)

/-- An anchor whose href contains `#cite_note-` without beginning with
it: a citation link of another page. -/
def absoluteCiteAnchor : Anchor :=
  { href := some "https://en.wikipedia.org/wiki/X#cite_note-5", inSup := false }

/-- An infobox row `Designed by | Robert X` with a citation anchor
duplicated in a superscript. -/
def designedByRow : Row :=
  { classes := [],
    cells := [⟨true, "Designed by", []⟩,
              ⟨false, "Robert X", [⟨some "#cite_note-bio-1", true⟩]⟩] }

/-- A reference map resolving `cite_note-bio-1`. -/
def bioRefs : String → Option String :=
  fun k => if k = "cite_note-bio-1" then some "https://example.com/bio" else none

/-- A document with one infobox holding `designedByRow`, no tables, and
a reference section resolving `cite_note-bio-1`. -/
def designedByDoc : Document :=
  { firstHeadingText := "Example Language", titleText := "",
    refSections := [⟨[{ id := some "cite_note-bio-1",
                        links := [⟨some "https://example.com/bio"⟩] }]⟩],
    olRefItems := [],
    infoboxes := [⟨[designedByRow]⟩], wikitables := [] }

/-- A document with no infobox and no wikitable regions, but with junk
reference sections. -/
def noRegionDoc : Document :=
  { firstHeadingText := "", titleText := "Empty",
    refSections := [⟨[twoLinkItem]⟩], olRefItems := [twoLinkItem],
    infoboxes := [], wikitables := [] }

/-- Three concrete cells `A`, `B`, `C` for the table-row scenario. -/
def cellA : Cell := ⟨false, "A", []⟩

/-- Second cell of the scenario. -/
def cellB : Cell := ⟨false, "B", []⟩

/-- Third cell of the scenario, to be ignored. -/
def cellC : Cell := ⟨false, "C", []⟩

/-! Helper lemmas. -/

theorem listStarts_nil_right (hay : List Char) : listStarts hay [] = true := by
  cases hay <;> rfl

theorem listStarts_trans : ∀ (p1 p2 hay : List Char),
    listStarts hay p2 = true → listStarts p2 p1 = true →
    listStarts hay p1 = true := by
  intro p1
  induction p1 with
  | nil => intro p2 hay _ _; exact listStarts_nil_right hay
  | cons b bs ih =>
    intro p2 hay h2 h21
    cases p2 with
    | nil => simp [listStarts] at h21
    | cons c cs =>
      cases hay with
      | nil => simp [listStarts] at h2
      | cons a as =>
        simp only [listStarts] at h2 h21 ⊢
        split at h2
        · split at h21
          · rename_i hac hcb
            rw [if_pos (hac.trans hcb)]
            exact ih cs as h2 h21
          · exact absurd h21 (by simp)
        · exact absurd h2 (by simp)

theorem listStarts_mem : ∀ (pat hay : List Char) (c : Char),
    listStarts hay pat = true → c ∈ pat → c ∈ hay := by
  intro pat
  induction pat with
  | nil => intro hay c _ hc; cases hc
  | cons b bs ih =>
    intro hay c hs hc
    cases hay with
    | nil => simp [listStarts] at hs
    | cons a as =>
      simp only [listStarts] at hs
      split at hs
      · rename_i hab
        rcases List.mem_cons.mp hc with rfl | hc2
        · exact List.mem_cons.mpr (Or.inl hab.symm)
        · exact List.mem_cons_of_mem a (ih as c hs hc2)
      · exact absurd hs (by simp)

theorem listHasSub_weaken (p1 p2 : List Char) (hp : listStarts p2 p1 = true) :
    ∀ hay, listHasSub hay p2 = true → listHasSub hay p1 = true := by
  intro hay
  induction hay with
  | nil =>
    intro h
    simp only [listHasSub, List.isEmpty_iff] at h ⊢
    subst h
    cases p1 with
    | nil => rfl
    | cons b bs => simp [listStarts] at hp
  | cons a hs ih =>
    intro h
    simp only [listHasSub, Bool.or_eq_true] at h ⊢
    rcases h with h | h
    · exact Or.inl (listStarts_trans p1 p2 (a :: hs) h hp)
    · exact Or.inr (ih h)

theorem listHasSub_mem : ∀ (hay pat : List Char) (c : Char),
    listHasSub hay pat = true → c ∈ pat → c ∈ hay := by
  intro hay
  induction hay with
  | nil =>
    intro pat c h hc
    simp only [listHasSub, List.isEmpty_iff] at h
    subst h; cases hc
  | cons a hs ih =>
    intro pat c h hc
    simp only [listHasSub, Bool.or_eq_true] at h
    rcases h with h | h
    · exact listStarts_mem pat (a :: hs) c h hc
    · exact List.mem_cons_of_mem a (ih pat c h hc)

theorem strContains_weaken {s : String} (h : strContains s "#cite_note-" = true) :
    strContains s "#cite_note" = true :=
  listHasSub_weaken _ _ (by decide) s.data h

theorem mem_data_of_strContains {s : String}
    (h : strContains s "#cite_note-" = true) : ('#' : Char) ∈ s.data :=
  listHasSub_mem s.data _ '#' h (by decide)

theorem processCiteAnchor_eq (refs : String → Option String)
    (st : List String × (String → Bool)) (a : Anchor) :
    processCiteAnchor refs st a = dedupStep st (resolveAnchor refs a) := by
  rcases a with ⟨href, sup⟩
  cases href with
  | none => rfl
  | some h =>
    simp only [processCiteAnchor, resolveAnchor]
    by_cases hc : strContains h "#cite_note-" = true
    · simp only [hc, if_true]
      cases refs ("cite_note-" ++ goTrimPre h "#cite_note-") with
      | none => rfl
      | some t => rfl
    · simp only [Bool.not_eq_true] at hc
      simp [hc, dedupStep]

theorem sync_empty : Sync ([], fun _ => false) := by
  intro x; simp

theorem dedupFoldFrom_cons (acc : List String) (x : String) (l : List String) :
    dedupFoldFrom acc (x :: l) =
    dedupFoldFrom (if x ∈ acc then acc else acc ++ [x]) l := rfl

theorem foldl_cite (refs : String → Option String) :
    ∀ (l : List Anchor) (st : List String × (String → Bool)), Sync st →
    (l.foldl (processCiteAnchor refs) st).1 =
      dedupFoldFrom st.1 (l.filterMap (resolveAnchor refs)) ∧
    Sync (l.foldl (processCiteAnchor refs) st) := by
  intro l
  induction l with
  | nil => intro st h; exact ⟨rfl, h⟩
  | cons a l ih =>
    intro st hsync
    rw [List.foldl_cons, processCiteAnchor_eq, List.filterMap_cons]
    cases hres : resolveAnchor refs a with
    | none => exact ih st hsync
    | some t =>
      by_cases hmem : st.2 t = true
      · have ht : t ∈ st.1 := (hsync t).mp hmem
        rw [show dedupStep st (some t) = st by simp [dedupStep, hmem],
            dedupFoldFrom_cons, if_pos ht]
        exact ih st hsync
      · have htm : t ∉ st.1 := fun hm => hmem ((hsync t).mpr hm)
        have hstep : dedupStep st (some t) =
            (st.1 ++ [t], fun x => if x = t then true else st.2 x) := by
          simp [dedupStep, hmem]
        have hsync2 : Sync (st.1 ++ [t], fun x => if x = t then true else st.2 x) := by
          intro x
          by_cases hx : x = t
          · subst hx; simp
          · simp only [if_neg hx, List.mem_append, List.mem_singleton]
            rw [hsync x]
            simp [hx]
        rw [hstep, dedupFoldFrom_cons, if_neg htm]
        exact ih _ hsync2

theorem dedupFoldFrom_nodup :
    ∀ (l acc : List String), acc.Nodup → (dedupFoldFrom acc l).Nodup := by
  intro l
  induction l with
  | nil => intro acc h; exact h
  | cons x l ih =>
    intro acc h
    rw [dedupFoldFrom_cons]
    by_cases hx : x ∈ acc
    · rw [if_pos hx]; exact ih acc h
    · rw [if_neg hx]
      refine ih _ (List.Nodup.append h (List.nodup_singleton x) ?_)
      intro a ha hax
      rw [List.mem_singleton] at hax
      exact hx (hax ▸ ha)

theorem dedupFoldFrom_len :
    ∀ (l acc : List String), acc.length ≤ (dedupFoldFrom acc l).length := by
  intro l
  induction l with
  | nil => intro acc; exact Nat.le_refl _
  | cons x l ih =>
    intro acc
    rw [dedupFoldFrom_cons]
    by_cases hx : x ∈ acc
    · rw [if_pos hx]; exact ih acc
    · rw [if_neg hx]
      calc acc.length ≤ (acc ++ [x]).length := by simp
        _ ≤ _ := ih _

theorem firstDedup_eq_nil {l : List String} : firstDedup l = [] ↔ l = [] := by
  constructor
  · intro h
    cases l with
    | nil => rfl
    | cons x l =>
      exfalso
      have h1 : (1 : Nat) ≤ (firstDedup (x :: l)).length := by
        have := dedupFoldFrom_len l [x]
        simpa [firstDedup, dedupFoldFrom_cons] using this
      rw [h] at h1
      simp at h1
  · intro h; subst h; rfl

theorem step_mono (refs : String → Option String)
    (st : List String × (String → Bool)) (a : Anchor) (x : String)
    (h : st.2 x = true) : (processCiteAnchor refs st a).2 x = true := by
  rw [processCiteAnchor_eq]
  cases resolveAnchor refs a with
  | none => exact h
  | some t =>
    by_cases hst : st.2 t = true
    · simpa [dedupStep, hst] using h
    · simp only [dedupStep, hst, if_neg]
      by_cases hx : x = t <;> simp [hx, h]

theorem step_self (refs : String → Option String)
    (st : List String × (String → Bool)) (a : Anchor) (t : String)
    (h : resolveAnchor refs a = some t) :
    (processCiteAnchor refs st a).2 t = true := by
  rw [processCiteAnchor_eq, h]
  by_cases hst : st.2 t = true
  · simp [dedupStep, hst]
  · simp [dedupStep, hst]

theorem fold_mono (refs : String → Option String) :
    ∀ (l : List Anchor) (st : List String × (String → Bool)) (x : String),
    st.2 x = true → (l.foldl (processCiteAnchor refs) st).2 x = true := by
  intro l
  induction l with
  | nil => intro st x h; exact h
  | cons a l ih =>
    intro st x h
    rw [List.foldl_cons]
    exact ih _ x (step_mono refs st a x h)

theorem fold_covers (refs : String → Option String) :
    ∀ (l : List Anchor) (st : List String × (String → Bool)) (a : Anchor)
    (t : String), a ∈ l → resolveAnchor refs a = some t →
    (l.foldl (processCiteAnchor refs) st).2 t = true := by
  intro l
  induction l with
  | nil => intro st a t hmem; cases hmem
  | cons b l ih =>
    intro st a t hmem hres
    rw [List.foldl_cons]
    rcases List.mem_cons.mp hmem with rfl | hmem2
    · exact fold_mono refs l _ t (step_self refs st a t hres)
    · exact ih _ a t hmem2 hres

theorem foldl_fix (refs : String → Option String) :
    ∀ (l : List Anchor) (st : List String × (String → Bool)),
    (∀ a ∈ l, processCiteAnchor refs st a = st) →
    l.foldl (processCiteAnchor refs) st = st := by
  intro l
  induction l with
  | nil => intro st _; rfl
  | cons a l ih =>
    intro st h
    rw [List.foldl_cons, h a (List.mem_cons_self a l)]
    exact ih st fun b hb => h b (List.mem_cons_of_mem a hb)

theorem updFold (q : String) :
    ∀ (ws : List (String × String)) (m : String → Option String),
    (ws.foldl (fun m p => refMapUpdate m p.1 p.2) m) q =
    ws.foldl (fun acc p => if p.1 = q then some p.2 else acc) (m q) := by
  intro ws
  induction ws with
  | nil => intro m; rfl
  | cons p ws ih =>
    intro m
    rw [List.foldl_cons, List.foldl_cons, ih]
    congr 1
    simp only [refMapUpdate]
    by_cases hq : p.1 = q
    · rw [if_pos hq, if_pos hq.symm]
    · rw [if_neg hq, if_neg fun h => hq h.symm]

theorem processRefItem_writes (m : String → Option String) (li : RefItem) :
    processRefItem m li =
    (itemWrites li).foldl (fun m p => refMapUpdate m p.1 p.2) m := by
  unfold processRefItem itemWrites
  cases li.id with
  | none => rfl
  | some i => rw [List.foldl_map]

theorem foldl_items_writes :
    ∀ (items : List RefItem) (m : String → Option String),
    items.foldl processRefItem m =
    (items.flatMap itemWrites).foldl (fun m p => refMapUpdate m p.1 p.2) m := by
  intro items
  induction items with
  | nil => intro m; rfl
  | cons li items ih =>
    intro m
    rw [List.foldl_cons, ih, List.flatMap_cons, List.foldl_append,
        processRefItem_writes]

theorem extractReferences_writes (d : Document) :
    extractReferences d =
    (refWrites d).foldl (fun m p => refMapUpdate m p.1 p.2) (fun _ => none) := by
  have hsec : ∀ (secs : List RefSection) (m : String → Option String),
      secs.foldl (fun m s => s.items.foldl processRefItem m) m =
      (secs.flatMap RefSection.items).foldl processRefItem m := by
    intro secs
    induction secs with
    | nil => intro m; rfl
    | cons s secs ih =>
      intro m
      rw [List.foldl_cons, ih, List.flatMap_cons, List.foldl_append]
  show (d.olRefItems.foldl processRefItem
      (d.refSections.foldl (fun m s => s.items.foldl processRefItem m)
        (fun _ => none))) = _
  rw [hsec, ← List.foldl_append, foldl_items_writes]
  rfl

theorem foldl_append_flatten {α β : Type} (f : α → List β) :
    ∀ (l : List α) (init : List β),
    l.foldl (fun acc s => acc ++ f s) init = init ++ (l.map f).flatten := by
  intro l
  induction l with
  | nil => intro init; simp
  | cons s l ih =>
    intro init
    rw [List.foldl_cons, ih, List.map_cons, List.flatten_cons, List.append_assoc]

theorem extract_eq (d : Document) :
    extract d =
    (d.infoboxes.map fun s =>
      parseInfobox s (pageTitle d) (extractReferences d)).flatten ++
    (d.wikitables.map fun s =>
      parseTable s (pageTitle d) (extractReferences d)).flatten := by
  show (d.wikitables.foldl
      (fun acc s => acc ++ parseTable s (pageTitle d) (extractReferences d))
      (d.infoboxes.foldl
        (fun acc s => acc ++ parseInfobox s (pageTitle d) (extractReferences d))
        [])) = _
  rw [foldl_append_flatten, foldl_append_flatten]
  simp

theorem infoboxRowQuad_subject {subject : String}
    {refs : String → Option String} {r : Row} {q : Quad}
    (h : infoboxRowQuad subject refs r = some q) : q.subject = subject := by
  unfold infoboxRowQuad at h
  split at h
  · exact absurd h (by simp)
  · simp only [] at h
    split at h
    · cases h; rfl
    · exact absurd h (by simp)

theorem tableRowQuad_subject {subject : String}
    {refs : String → Option String} {r : Row} {q : Quad}
    (h : tableRowQuad subject refs r = some q) : q.subject = subject := by
  unfold tableRowQuad at h
  split at h
  · simp only [] at h
    split at h
    · cases h; rfl
    · exact absurd h (by simp)
  · exact absurd h (by simp)

/-! Claim theorems. -/

/-- C1 (counterexample): in a document whose single reference item carries
id `cite_note-1` and holds the external links `http://a` then `http://b`,
the Reference Index maps the identifier to `http://b`, not to the FIRST
external link `http://a` — so "first external link wins / first writer
wins" is false on the code. -/
theorem refIndex_first_writer_cex :
    httpLinks twoLinkItem = ["http://a", "http://b"] ∧
    extractReferences twoLinkDoc "cite_note-1" = some "http://b" ∧
    some "http://b" ≠ some ("http://a" : String) := by
  refine ⟨by decide, by decide, by decide⟩

/-- C1 (amended): for every document and identifier, the Reference Index
built by `extractReferences` maps the identifier to the LAST external
link target assigned to it, in execution order over both scanning passes:
every later match overwrites an earlier one (last writer wins per
identifier, both within one item and across items and passes). -/
theorem refIndex_last_writer (d : Document) (q : String) :
    extractReferences d q =
    (refWrites d).foldl (fun acc p => if p.1 = q then some p.2 else acc) none := by
  rw [extractReferences_writes, updFold]

/-- C2: extraction is deterministic — running the entry point twice on
the same immutable document yields two identical ordered quad sequences,
and the run outcome (success with those quads, or the propagated fetch
failure) is identical on both runs. -/
theorem extract_deterministic (fetched : Option Document) :
    extractFromURL fetched = extractFromURL fetched ∧
    ∀ d : Document, (extractTwice d).1 = (extractTwice d).2 :=
  ⟨rfl, fun _ => rfl⟩

/-- C6: the table Row Parser emits an assertion only for rows with at
least two cells, uses the first cell as label and the second as value,
and ignores every cell beyond the second: a three-or-more-cell row parses
exactly like its first two cells alone, and a row with fewer than two
cells yields nothing. -/
theorem tableRow_first_two_cells (subject : String)
    (refs : String → Option String) (classes : List String)
    (c0 c1 : Cell) (rest : List Cell) :
    tableRowQuad subject refs ⟨classes, c0 :: c1 :: rest⟩ =
      tableRowQuad subject refs ⟨classes, [c0, c1]⟩ ∧
    tableRowQuad subject refs ⟨classes, c0 :: c1 :: rest⟩ =
      (if goTrimSpace c0.text != "" && goTrimSpace c1.text != "" then
        some { subject := subject, relationship := goTrimSpace c0.text,
               value := goTrimSpace c1.text,
               citation := extractCitations c1.anchors refs }
       else none) ∧
    ∀ r : Row, r.cells.length < 2 → tableRowQuad subject refs r = none := by
  refine ⟨rfl, rfl, ?_⟩
  intro r hr
  rcases r with ⟨cls, cells⟩
  match cells with
  | [] => rfl
  | [c] => rfl
  | a :: b :: t => simp at hr; omega

/-- C6 witness: a one-cell row yields nothing, and the three-cell row
`A, B, C` parses exactly like the two-cell row `A, B`. -/
theorem tableRow_first_two_cells_witness :
    tableRowQuad "S" bioRefs ⟨[], [cellA]⟩ = none ∧
    tableRowQuad "S" bioRefs ⟨[], [cellA, cellB, cellC]⟩ =
      tableRowQuad "S" bioRefs ⟨[], [cellA, cellB]⟩ :=
  ⟨(tableRow_first_two_cells "S" bioRefs [] cellA cellB [cellC]).2.2
      ⟨[], [cellA]⟩ (by decide),
   (tableRow_first_two_cells "S" bioRefs [] cellA cellB [cellC]).1⟩

/-- C7: the extracted sequence is ordered as all info-panel assertions
(regions in document order, rows in row order) followed by all
generic-table assertions (regions in document order, rows in row
order). -/
theorem extract_ordering (d : Document) :
    extract d =
    (d.infoboxes.map fun s =>
      parseInfobox s (pageTitle d) (extractReferences d)).flatten ++
    (d.wikitables.map fun s =>
      parseTable s (pageTitle d) (extractReferences d)).flatten :=
  extract_eq d

/-- C8: a document with zero structured regions makes `extract` return
the empty sequence, not an error. -/
theorem extract_empty_of_no_regions (d : Document)
    (h1 : d.infoboxes = []) (h2 : d.wikitables = []) : extract d = [] := by
  rw [extract_eq, h1, h2]
  rfl

/-- C8 witness: a concrete document with reference sections but no
infobox and no wikitable regions extracts to the empty sequence. -/
theorem extract_empty_of_no_regions_witness : extract noRegionDoc = [] :=
  extract_empty_of_no_regions noRegionDoc rfl rfl

theorem isSome_if_bne {α : Type} {a b : String} {q : α} :
    ((if a != "" && b != "" then some q else none).isSome = true) ↔
    (a ≠ "" ∧ b ≠ "") := by
  by_cases ha : a = "" <;> by_cases hb : b = "" <;>
    simp [ha, hb, bne_iff_ne]

/-- C5: every assertion returned by `extract` carries the single page
subject of its document — the primary heading's text, else the
document title's text, else the empty string (`pageTitle`). -/
theorem extract_subject_invariant (d : Document) (q : Quad)
    (hq : q ∈ extract d) : q.subject = pageTitle d := by
  rw [extract_eq] at hq
  rcases List.mem_append.mp hq with h | h
  · obtain ⟨l, hl, hql⟩ := List.mem_flatten.mp h
    obtain ⟨s, _, rfl⟩ := List.mem_map.mp hl
    simp only [parseInfobox] at hql
    obtain ⟨r, _, hrq⟩ := List.mem_filterMap.mp hql
    exact infoboxRowQuad_subject hrq
  · obtain ⟨l, hl, hql⟩ := List.mem_flatten.mp h
    obtain ⟨s, _, rfl⟩ := List.mem_map.mp hl
    simp only [parseTable] at hql
    obtain ⟨r, _, hrq⟩ := List.mem_filterMap.mp hql
    exact tableRowQuad_subject hrq

/-- C5 witness: the single assertion of the scenario document carries the
page subject `Example Language`. -/
theorem extract_subject_invariant_witness :
    ({ subject := "Example Language", relationship := "Designed by",
       value := "Robert X", citation := "https://example.com/bio" } : Quad).subject
      = pageTitle designedByDoc :=
  extract_subject_invariant designedByDoc _ (by decide)

/-- C4: a processed row (a non-header infobox row, or a table row with
two or more cells) emits an assertion if and only if both the trimmed
label and the trimmed value are non-empty; otherwise the row yields
nothing, not an error. -/
theorem rowParser_emission_iff (subject : String)
    (refs : String → Option String) :
    (∀ r : Row, r.classes.contains "infobox-header" = false →
      r.classes.contains "infobox-subheader" = false →
      ((infoboxRowQuad subject refs r).isSome = true ↔
        (goTrimSpace (cellsText (rowTh r)) ≠ "" ∧
         goTrimSpace (cellsText (rowTd r)) ≠ ""))) ∧
    (∀ (classes : List String) (c0 c1 : Cell) (rest : List Cell),
      ((tableRowQuad subject refs ⟨classes, c0 :: c1 :: rest⟩).isSome = true ↔
        (goTrimSpace c0.text ≠ "" ∧ goTrimSpace c1.text ≠ ""))) := by
  constructor
  · intro r h1 h2
    simp only [infoboxRowQuad, h1, h2, Bool.or_self, Bool.false_eq_true,
      if_false]
    exact isSome_if_bne
  · intro classes c0 c1 rest
    simp only [tableRowQuad]
    exact isSome_if_bne

/-- C4 witness: the scenario infobox row (non-empty label and value)
emits, and the two-cell table row `A, B` emits. -/
theorem rowParser_emission_iff_witness :
    (infoboxRowQuad "Example Language" bioRefs designedByRow).isSome = true ∧
    (tableRowQuad "S" bioRefs ⟨[], [cellA, cellB, cellC]⟩).isSome = true :=
  ⟨((rowParser_emission_iff "Example Language" bioRefs).1 designedByRow
      rfl rfl).mpr (by decide),
   ((rowParser_emission_iff "S" bioRefs).2 [] cellA cellB [cellC]).mpr
      (by decide)⟩

/-- C3: `extractCitations` returns the sentinel `no citation` exactly
when no citation marker of the cell resolves through the index, and
otherwise the distinct resolved targets joined with `; ` in
first-encountered order; the deduplicated target list never repeats a
resolved target. -/
theorem extractCitations_characterization (anchors : List Anchor)
    (refs : String → Option String) :
    extractCitations anchors refs =
      (if (citePassOne anchors ++ citePassTwo anchors).filterMap
            (resolveAnchor refs) = []
       then "no citation"
       else String.intercalate "; "
         (firstDedup ((citePassOne anchors ++ citePassTwo anchors).filterMap
            (resolveAnchor refs)))) ∧
    (firstDedup ((citePassOne anchors ++ citePassTwo anchors).filterMap
        (resolveAnchor refs))).Nodup ∧
    extractCitations
      [⟨some "#cite_note-bio-1", false⟩, ⟨some "#cite_note-bio-1", true⟩]
      bioRefs = "https://example.com/bio" := by
  have hfold := foldl_cite refs (citePassOne anchors ++ citePassTwo anchors)
    ([], fun _ => false) sync_empty
  rw [List.foldl_append] at hfold
  constructor
  · show (if ((citePassTwo anchors).foldl (processCiteAnchor refs)
          ((citePassOne anchors).foldl (processCiteAnchor refs)
            ([], fun _ => false))).1.isEmpty
        then "no citation"
        else String.intercalate "; "
          ((citePassTwo anchors).foldl (processCiteAnchor refs)
            ((citePassOne anchors).foldl (processCiteAnchor refs)
              ([], fun _ => false))).1) = _
    rw [hfold.1]
    by_cases hres : (citePassOne anchors ++ citePassTwo anchors).filterMap
        (resolveAnchor refs) = []
    · rw [if_pos hres, hres]
      rfl
    · rw [if_neg hres]
      have hne : firstDedup ((citePassOne anchors ++ citePassTwo anchors).filterMap
          (resolveAnchor refs)) ≠ [] := fun hn => hres (firstDedup_eq_nil.mp hn)
      have hie : (firstDedup ((citePassOne anchors ++ citePassTwo anchors).filterMap
          (resolveAnchor refs))).isEmpty = false := by
        cases hcase : (firstDedup ((citePassOne anchors ++ citePassTwo anchors).filterMap
            (resolveAnchor refs))).isEmpty
        · rfl
        · exact absurd (List.isEmpty_iff.mp hcase) hne
      show (if (firstDedup _).isEmpty then _ else _) = _
      rw [hie]
      rfl
  refine ⟨dedupFoldFrom_nodup _ [] List.nodup_nil, by decide⟩

/-- C9: the superscript scanning pass of `extractCitations` never adds a
citation the anchor pass has not already added: every resolvable
superscript link also matches the first pass's selector and the shared
dedup state rejects it, so `extractCitations` equals its variant with
the superscript pass removed. -/
theorem sup_pass_redundant (anchors : List Anchor)
    (refs : String → Option String) :
    extractCitations anchors refs = extractCitationsNoSup anchors refs := by
  have key : (citePassTwo anchors).foldl (processCiteAnchor refs)
      ((citePassOne anchors).foldl (processCiteAnchor refs)
        ([], fun _ => false)) =
      (citePassOne anchors).foldl (processCiteAnchor refs)
        ([], fun _ => false) := by
    apply foldl_fix
    intro a ha
    rw [processCiteAnchor_eq]
    cases hres : resolveAnchor refs a with
    | none => rfl
    | some t =>
      simp only [citePassTwo] at ha
      have hmem : a ∈ anchors := List.mem_of_mem_filter ha
      rcases a with ⟨href, sup⟩
      cases href with
      | none => simp [resolveAnchor] at hres
      | some h =>
        have hc : strContains h "#cite_note-" = true := by
          by_contra hcn
          simp only [Bool.not_eq_true] at hcn
          simp [resolveAnchor, hcn] at hres
        have h1 : (⟨some h, sup⟩ : Anchor) ∈ citePassOne anchors := by
          simp only [citePassOne]
          refine List.mem_filter.mpr ⟨hmem, ?_⟩
          simpa using strContains_weaken hc
        have h2 : ((citePassOne anchors).foldl (processCiteAnchor refs)
            ([], fun _ => false)).2 t = true :=
          fold_covers refs (citePassOne anchors) _ _ t h1 hres
        simp [dedupStep, h2]
  unfold extractCitations extractCitationsNoSup
  simp only []
  rw [key]

/-- C10: an anchor whose href contains `#cite_note` without beginning
with `#cite_note-` (an absolute or other-page citation address) never
contributes a citation when no index key contains `#`: the trim leaves
the href unchanged, the derived key contains `#` and matches no index
key, and the per-anchor step leaves the collection state unchanged. -/
theorem external_cite_no_contribution (refs : String → Option String)
    (st : List String × (String → Bool)) (a : Anchor) (h : String)
    (ha : a.href = some h)
    (_hsub : strContains h "#cite_note" = true)
    (hpre : strStarts h "#cite_note-" = false)
    (hkeys : ∀ k v, refs k = some v → ('#' : Char) ∉ k.data) :
    processCiteAnchor refs st a = st ∧ resolveAnchor refs a = none := by
  have hres : resolveAnchor refs a = none := by
    rcases a with ⟨href, sup⟩
    simp only [] at ha
    subst ha
    simp only [resolveAnchor]
    by_cases hc : strContains h "#cite_note-" = true
    · simp only [hc, if_true]
      have htrim : goTrimPre h "#cite_note-" = h := by
        simp [goTrimPre, hpre]
      rw [htrim]
      cases hk : refs ("cite_note-" ++ h) with
      | none => rfl
      | some v =>
        exact absurd (by
          rw [String.data_append]
          exact List.mem_append_right _ (mem_data_of_strContains hc))
          (hkeys _ v hk)
    · simp [hc]
  exact ⟨by rw [processCiteAnchor_eq, hres]; rfl, hres⟩

/-- C10 witness: the concrete anchor
`https://en.wikipedia.org/wiki/X#cite_note-5` contributes nothing
against an index whose single key is `cite_note-ok`. -/
theorem external_cite_no_contribution_witness :
    processCiteAnchor oneKeyRefs emptyCiteState absoluteCiteAnchor =
      emptyCiteState ∧
    resolveAnchor oneKeyRefs absoluteCiteAnchor = none :=
  external_cite_no_contribution oneKeyRefs emptyCiteState absoluteCiteAnchor
    "https://en.wikipedia.org/wiki/X#cite_note-5" rfl (by decide) (by decide)
    (fun k v hkv => by
      by_cases hk : k = "cite_note-ok"
      · subst hk
        exact by decide
      · simp [oneKeyRefs, hk] at hkv)

end WikiExtract
